import Mathlib

/-!
Shallow embedding of `src/skills/mermaid/scripts/validate_mermaid.py`.

Python strings are modelled as `List Char`; the external renderer subprocess
is an opaque collaborator, so `validate_diagram` takes the outcome of the one
`subprocess.run` call as an explicit `RunOutcome` parameter.  Filesystem
effects on the two temporary files are recorded as an event trace.
-/

namespace ValidateMermaid

/-- The ASCII whitespace set stripped by Python's `str.strip()`:
space, tab, newline, carriage return, vertical tab, form feed. -/
def isPyWs (c : Char) : Bool :=
  c == ' ' || c == '\t' || c == '\n' || c == '\x0d' || c == '\x0b' || c == '\x0c'

/-- Python's `str.lower()` restricted to ASCII letters (the only characters
the script's keyword tables contain). -/
def pyLower (c : Char) : Char :=
  match c with
  | 'A' => 'a' | 'B' => 'b' | 'C' => 'c' | 'D' => 'd' | 'E' => 'e' | 'F' => 'f'
  | 'G' => 'g' | 'H' => 'h' | 'I' => 'i' | 'J' => 'j' | 'K' => 'k' | 'L' => 'l'
  | 'M' => 'm' | 'N' => 'n' | 'O' => 'o' | 'P' => 'p' | 'Q' => 'q' | 'R' => 'r'
  | 'S' => 's' | 'T' => 't' | 'U' => 'u' | 'V' => 'v' | 'W' => 'w' | 'X' => 'x'
  | 'Y' => 'y' | 'Z' => 'z'
  | c => c

/-- Python's `str.strip()`: drop leading and trailing whitespace. -/
def pyStrip (l : List Char) : List Char :=
  (l.dropWhile isPyWs).rdropWhile isPyWs

/-- Prepend a character to the first field of a split. -/
def consHead (c : Char) : List (List Char) → List (List Char)
  | [] => [[c]]
  | h :: r => (c :: h) :: r

/-- Python's `str.split('\n')` (split on every newline; no collapsing,
`''.split('\n') == ['']`). -/
def splitNl : List Char → List (List Char)
  | [] => [[]]
  | c :: t => if c = '\n' then [] :: splitNl t else consHead c (splitNl t)

/-- Python's `'\n'.join(...)`, used to state re-filtering of an already
extracted error list. -/
def joinNl : List (List Char) → List Char
  | [] => []
  | [l] => l
  | l :: l2 :: ls => l ++ '\n' :: joinNl (l2 :: ls)

/-- `first_line.replace(' ', '').replace('-', '')` from `detect_diagram_type`. -/
def stripSpaceHyphen (l : List Char) : List Char :=
  (l.filter (fun c => c != ' ')).filter (fun c => c != '-')

/-- The ordered `type_map` dictionary of `detect_diagram_type`
(Python dicts iterate in insertion order). -/
def type_map : List (List Char × List Char) :=
  [("graph".toList, "flowchart".toList),
   ("flowchart".toList, "flowchart".toList),
   ("sequencediagram".toList, "sequence".toList),
   ("classdiagram".toList, "class".toList),
   ("statediagram".toList, "state".toList),
   ("erdiagram".toList, "er".toList),
   ("gantt".toList, "gantt".toList),
   ("gitgraph".toList, "git-graph".toList),
   ("journey".toList, "user-journey".toList),
   ("pie".toList, "pie".toList),
   ("mindmap".toList, "mindmap".toList),
   ("timeline".toList, "timeline".toList),
   ("quadrantchart".toList, "quadrant".toList)]

/-- `content.strip().split('\n')[0].lower() if content.strip() else ''`. -/
def firstLineLower (content : List Char) : List Char :=
  if pyStrip content = [] then []
  else ((splitNl (pyStrip content)).headD []).map pyLower

/-- `detect_diagram_type` from the script: test each `type_map` keyword, in
table order, for substring containment in the lowercased first line with
spaces and hyphens removed; return the first match, else `"unknown"`. -/
def detect_diagram_type (content : List Char) : List Char :=
  let first_line := firstLineLower content
  match type_map.find? (fun p => decide (p.1 <:+: stripSpaceHyphen first_line)) with
  | some p => p.2
  | none => "unknown".toList

/-- The keyword list of `parse_mmdc_errors`. -/
def error_keywords : List (List Char) :=
  ["error".toList, "parse".toList, "syntax".toList,
   "invalid".toList, "unexpected".toList]

/-- The fallback error message of `parse_mmdc_errors`. -/
def fallback_error : List Char := "Syntax error in diagram".toList

/-- The loop body of `parse_mmdc_errors`: keep a stderr line when its
lowercased form contains one of the keywords and its stripped form is
non-empty and does not start with `'('`; the kept value is the stripped line. -/
def keepLine (line : List Char) : Option (List Char) :=
  let line_lower := line.map pyLower
  if error_keywords.any (fun k => decide (k <:+: line_lower)) then
    let clean_error := pyStrip line
    if clean_error ≠ [] ∧ clean_error.head? ≠ some '(' then some clean_error
    else none
  else none

/-- `parse_mmdc_errors` from the script. -/
def parse_mmdc_errors (stderr : List Char) : List (List Char) :=
  let errors := (splitNl stderr).filterMap keepLine
  if errors = [] then [fallback_error] else errors

/-- The result dictionary shape returned by `validate_diagram`. -/
structure ValidationResult where
  valid : Bool
  errors : List (List Char)
  warnings : List (List Char)
  diagram_type : List Char
deriving DecidableEq

/-- Outcome of the single `subprocess.run` call (the external renderer is an
opaque collaborator): normal completion with exit code and captured output,
`subprocess.TimeoutExpired`, `FileNotFoundError` (the `npx` executable cannot
be located), or any other exception with its message. -/
inductive RunOutcome where
  | completed (returncode : Int) (stdout stderr : List Char)
  | timedOut
  | fileNotFound
  | otherError (msg : List Char)
deriving DecidableEq

/-- Filesystem / process events performed by `validate_diagram`: creation of
the two `NamedTemporaryFile`s (`delete=False`), the subprocess spawn, and the
two `Path(...).unlink(missing_ok=True)` calls of the `finally` block. -/
inductive Event where
  | createInput | createOutput | spawn | unlinkInput | unlinkOutput
deriving DecidableEq

/-- The `timeout=10` argument passed to `subprocess.run` (seconds). -/
def subprocess_timeout_seconds : Nat := 10

/-- `validate_diagram` from the script, with its event trace.  An empty or
whitespace-only `content` returns immediately with no events; otherwise both
temp files are created, the subprocess is spawned, and the `finally` block
unlinks both files on every path (normal return, timeout, `FileNotFoundError`,
or any other exception). -/
def validate_diagram_events (content : List Char) (run : RunOutcome) :
    ValidationResult × List Event :=
  if pyStrip content = [] then
    ({ valid := false,
       errors := ["Empty diagram content".toList],
       warnings := [],
       diagram_type := "unknown".toList }, [])
  else
    let trace : List Event :=
      [Event.createInput, Event.createOutput, Event.spawn,
       Event.unlinkInput, Event.unlinkOutput]
    match run with
    | RunOutcome.completed returncode _ stderr =>
      ({ valid := returncode == 0,
         errors := if returncode == 0 then [] else parse_mmdc_errors stderr,
         warnings := [],
         diagram_type := detect_diagram_type content }, trace)
    | RunOutcome.timedOut =>
      ({ valid := false,
         errors := ["Validation timeout (diagram too complex or infinite loop)".toList],
         warnings := [],
         diagram_type := detect_diagram_type content }, trace)
    | RunOutcome.fileNotFound =>
      ({ valid := false,
         errors := ["mermaid-cli not available - npx command not found".toList],
         warnings := [],
         diagram_type := detect_diagram_type content }, trace)
    | RunOutcome.otherError msg =>
      ({ valid := false,
         errors := ["Validation error: ".toList ++ msg],
         warnings := [],
         diagram_type := detect_diagram_type content }, trace)

/-- The `ValidationResult` returned by `validate_diagram`. -/
def validate_diagram (content : List Char) (run : RunOutcome) : ValidationResult :=
  (validate_diagram_events content run).1

/-- Which of the two temporary files exist on disk. -/
structure FsState where
  inputExists : Bool
  outputExists : Bool
deriving DecidableEq

/-- Effect of one event on the temp files.  `unlink` models
`Path(...).unlink(missing_ok=True)`: the file is removed if present and a
missing file is silently ignored (no error is raised or reported). -/
def applyEvent (s : FsState) : Event → FsState
  | Event.createInput => { s with inputExists := true }
  | Event.createOutput => { s with outputExists := true }
  | Event.spawn => s
  | Event.unlinkInput => { s with inputExists := false }
  | Event.unlinkOutput => { s with outputExists := false }

/-- Temp-file state after a `validate_diagram` call returns, starting from a
state in which neither file exists. -/
def finalFs (content : List Char) (run : RunOutcome) : FsState :=
  ((validate_diagram_events content run).2).foldl applyEvent ⟨false, false⟩

/-- The argument-parsing outcome of `main`: `--stdin` content, a file path
whose read succeeded, a file path that does not exist (`FileNotFoundError`),
a file path whose read raised some other exception, or no arguments. -/
inductive CliInput where
  | stdinContent (content : List Char)
  | fileOk (content : List Char)
  | fileMissing (path : List Char)
  | fileUnreadable (msg : List Char)
  | noArgs
deriving DecidableEq

/-- The process exit code produced by `main`: 2 on the CLI-level error paths
(missing file, unreadable file, no arguments), otherwise 1 when the
validation result has `valid` false and 0 when it is true. -/
def main_exit (input : CliInput) (run : RunOutcome) : Nat :=
  match input with
  | CliInput.fileMissing _ => 2
  | CliInput.fileUnreadable _ => 2
  | CliInput.noArgs => 2
  | CliInput.stdinContent content =>
      if (validate_diagram content run).valid then 0 else 1
  | CliInput.fileOk content =>
      if (validate_diagram content run).valid then 0 else 1

/-- What `main` prints to standard output: the JSON-serialized
`ValidationResult` on the validation paths, nothing on the CLI-level error
paths (those print only to standard error). -/
def main_stdout (input : CliInput) (run : RunOutcome) : Option ValidationResult :=
  match input with
  | CliInput.stdinContent content => some (validate_diagram content run)
  | CliInput.fileOk content => some (validate_diagram content run)
  | _ => none

/-- Modelled from the spec wording for the Error-Line Extractor, for
comparison with `parse_mmdc_errors`: keep the trimmed non-empty lines whose
lowercased form contains at least one keyword and that do not start with an
opening parenthesis. -/
def specKeep (t : List Char) : Bool :=
  decide (t ≠ []) &&
  (error_keywords.any fun k => decide (k <:+: t.map pyLower)) &&
  decide (t.head? ≠ some '(')

/-- The Error-Line Extractor as the specification states it: split into
lines, trim each line, keep the qualifying ones in input order, and fall back
to the single fixed message when none qualifies. -/
def spec_extracted_errors (stderr : List Char) : List (List Char) :=
  let q := ((splitNl stderr).map pyStrip).filter specKeep
  if q = [] then [fallback_error] else q

/-! ### Character and line-splitting lemmas -/

theorem pyLower_ws (c : Char) : isPyWs (pyLower c) = isPyWs c := by
  unfold pyLower
  split <;> rfl

theorem splitNl_ne_nil (s : List Char) : splitNl s ≠ [] := by
  cases s with
  | nil => simp [splitNl]
  | cons c t =>
    rw [splitNl]
    by_cases hc : c = '\n'
    · simp [hc]
    · rw [if_neg hc]
      cases splitNl t <;> simp [consHead]

theorem splitNl_no_nl {a : List Char} (h : '\n' ∉ a) : splitNl a = [a] := by
  induction a with
  | nil => rfl
  | cons c t ih =>
    have hc : c ≠ '\n' := fun hcc => h (hcc ▸ List.mem_cons_self c t)
    have ht : '\n' ∉ t := fun htt => h (List.mem_cons_of_mem c htt)
    rw [splitNl, if_neg hc, ih ht, consHead]

theorem splitNl_append {a : List Char} (b : List Char) (h : '\n' ∉ a) :
    splitNl (a ++ '\n' :: b) = a :: splitNl b := by
  induction a with
  | nil =>
    rw [List.nil_append, splitNl, if_pos rfl]
  | cons c t ih =>
    have hc : c ≠ '\n' := fun hcc => h (hcc ▸ List.mem_cons_self c t)
    have ht : '\n' ∉ t := fun htt => h (List.mem_cons_of_mem c htt)
    rw [List.cons_append, splitNl, if_neg hc, ih ht, consHead]

theorem no_nl_of_mem_splitNl {s l : List Char} (hl : l ∈ splitNl s) : '\n' ∉ l := by
  induction s generalizing l with
  | nil =>
    simp [splitNl] at hl
    subst hl
    simp
  | cons c t ih =>
    rw [splitNl] at hl
    by_cases hc : c = '\n'
    · rw [if_pos hc] at hl
      rcases List.mem_cons.mp hl with hl | hl
      · subst hl; simp
      · exact ih hl
    · rw [if_neg hc] at hl
      cases hsp : splitNl t with
      | nil => exact absurd hsp (splitNl_ne_nil t)
      | cons h r =>
        rw [hsp, consHead] at hl
        have hmem : ∀ x ∈ h :: r, '\n' ∉ x := fun x hx => ih (hsp ▸ hx)
        rcases List.mem_cons.mp hl with hl | hl
        · subst hl
          intro hmem2
          rcases List.mem_cons.mp hmem2 with h2 | h2
          · exact hc h2.symm
          · exact hmem h (List.mem_cons_self h r) h2
        · exact hmem l (List.mem_cons_of_mem h hl)

theorem splitNl_joinNl {ls : List (List Char)} (h0 : ls ≠ [])
    (h : ∀ l ∈ ls, '\n' ∉ l) : splitNl (joinNl ls) = ls := by
  induction ls with
  | nil => exact absurd rfl h0
  | cons l rest ih =>
    cases rest with
    | nil =>
      rw [joinNl, splitNl_no_nl (h l (List.mem_cons_self l []))]
    | cons l2 rest2 =>
      have h1 : '\n' ∉ l := h l (List.mem_cons_self l (l2 :: rest2))
      have h2 : ∀ x ∈ l2 :: rest2, '\n' ∉ x := fun x hx => h x (List.mem_cons_of_mem l hx)
      have h3 : splitNl (joinNl (l2 :: rest2)) = l2 :: rest2 :=
        ih (List.cons_ne_nil l2 rest2) h2
      rw [joinNl, splitNl_append (joinNl (l2 :: rest2)) h1, h3]

/-! ### Substring and stripping lemmas -/

theorem sub_self_append (l t : List Char) : l <:+: l ++ t := ⟨[], t, by simp⟩

theorem sub_dropWhile {k m : List Char} (hk : k ≠ [])
    (hws : ∀ c ∈ k, isPyWs c = false) (h : k <:+: m) :
    k <:+: m.dropWhile isPyWs := by
  induction m with
  | nil =>
    exact absurd (List.sublist_nil.mp h.sublist) hk
  | cons c t ih =>
    cases hb : isPyWs c with
    | true =>
      rw [List.dropWhile_cons_of_pos hb]
      apply ih
      obtain ⟨u, v, huv⟩ := h
      cases u with
      | nil =>
        cases k with
        | nil => exact absurd rfl hk
        | cons k0 k1 =>
          simp only [List.nil_append, List.cons_append, List.cons.injEq] at huv
          have hk0 : isPyWs k0 = false := hws k0 (List.mem_cons_self k0 k1)
          rw [huv.1, hb] at hk0
          cases hk0
      | cons u0 u1 =>
        simp only [List.cons_append, List.cons.injEq] at huv
        exact ⟨u1, v, huv.2⟩
    | false =>
      rw [List.dropWhile_cons_of_neg (by simp [hb])]
      exact h

theorem sub_rdropWhile {k m : List Char} (hk : k ≠ [])
    (hws : ∀ c ∈ k, isPyWs c = false) (h : k <:+: m) :
    k <:+: m.rdropWhile isPyWs := by
  have hkr : k.reverse ≠ [] := by simpa using hk
  have hwsr : ∀ c ∈ k.reverse, isPyWs c = false :=
    fun c hc => hws c (List.mem_reverse.mp hc)
  have h2 := sub_dropWhile hkr hwsr h.reverse
  simpa [List.rdropWhile] using h2.reverse

theorem pyStrip_sub (m : List Char) : pyStrip m <:+: m := by
  have h1 : (m.dropWhile isPyWs).rdropWhile isPyWs <+: m.dropWhile isPyWs :=
    List.rdropWhile_prefix _ _
  exact h1.isInfix.trans (List.dropWhile_suffix _).isInfix

theorem sub_pyStrip_iff {k : List Char} (m : List Char) (hk : k ≠ [])
    (hws : ∀ c ∈ k, isPyWs c = false) :
    k <:+: pyStrip m ↔ k <:+: m := by
  constructor
  · intro h
    exact h.trans (pyStrip_sub m)
  · intro h
    exact sub_rdropWhile hk hws (sub_dropWhile hk hws h)

theorem dropWhile_head_false {p : Char → Bool} {l : List Char} {a : Char} {t : List Char}
    (h : l.dropWhile p = a :: t) : p a = false := by
  induction l with
  | nil => simp [List.dropWhile] at h
  | cons c r ih =>
    cases hb : p c with
    | true =>
      rw [List.dropWhile_cons_of_pos hb] at h
      exact ih h
    | false =>
      rw [List.dropWhile_cons_of_neg (by simp [hb])] at h
      injection h with h1 h2
      subst h1
      exact hb

theorem head_eq_of_isPre {Y X : List Char} (h : Y <+: X) (hY : Y ≠ []) :
    X.head? = Y.head? := by
  obtain ⟨t, rfl⟩ := h
  cases Y with
  | nil => exact absurd rfl hY
  | cons y ys => rfl

theorem pyStrip_idem (l : List Char) : pyStrip (pyStrip l) = pyStrip l := by
  unfold pyStrip
  have h1 : (l.dropWhile isPyWs).rdropWhile isPyWs <+: l.dropWhile isPyWs :=
    List.rdropWhile_prefix _ _
  have h2 : ((l.dropWhile isPyWs).rdropWhile isPyWs).dropWhile isPyWs =
      (l.dropWhile isPyWs).rdropWhile isPyWs := by
    cases hY : (l.dropWhile isPyWs).rdropWhile isPyWs with
    | nil => rfl
    | cons y ys =>
      have hh : (l.dropWhile isPyWs).head? = some y := by
        rw [head_eq_of_isPre h1 (by simp [hY]), hY]
        rfl
      cases hXc : l.dropWhile isPyWs with
      | nil => rw [hXc] at hh; cases hh
      | cons x0 xt =>
        rw [hXc] at hh
        injection hh with hh0
        have hws0 : isPyWs x0 = false := dropWhile_head_false hXc
        rw [hh0] at hws0
        exact List.dropWhile_cons_of_neg (by simp [hws0])
  rw [h2, List.rdropWhile_idempotent]

theorem pyLower_dropWhile (l : List Char) :
    (l.map pyLower).dropWhile isPyWs = (l.dropWhile isPyWs).map pyLower := by
  rw [List.dropWhile_map,
    show (isPyWs ∘ pyLower) = isPyWs from funext pyLower_ws]

theorem pyLower_rdropWhile (l : List Char) :
    (l.map pyLower).rdropWhile isPyWs = (l.rdropWhile isPyWs).map pyLower := by
  unfold List.rdropWhile
  rw [← List.map_reverse, pyLower_dropWhile, List.map_reverse]

theorem pyLower_pyStrip (l : List Char) :
    (pyStrip l).map pyLower = pyStrip (l.map pyLower) := by
  unfold pyStrip
  rw [pyLower_dropWhile, pyLower_rdropWhile]

theorem any_sub_strip (ks : List (List Char))
    (hks : ∀ k ∈ ks, k ≠ [] ∧ ∀ c ∈ k, isPyWs c = false) (m : List Char) :
    (ks.any fun k => decide (k <:+: pyStrip m)) =
      ks.any fun k => decide (k <:+: m) := by
  induction ks with
  | nil => rfl
  | cons k kt ih =>
    have hk := hks k (List.mem_cons_self k kt)
    rw [List.any_cons, List.any_cons,
      ih (fun x hx => hks x (List.mem_cons_of_mem k hx)),
      decide_eq_decide.mpr (sub_pyStrip_iff m hk.1 hk.2)]

theorem sub_append_ws {k A T : List Char} (hk : k ≠ [])
    (hws : ∀ c ∈ k, isPyWs c = false) (hT : ∀ c ∈ T, isPyWs c = true) :
    k <:+: A ++ T ↔ k <:+: A := by
  constructor
  · intro h
    have h1 : k.reverse <:+: T.reverse ++ A.reverse := by simpa using h.reverse
    have h2 := sub_dropWhile (by simpa using hk)
      (fun c hc => hws c (List.mem_reverse.mp hc)) h1
    rw [List.dropWhile_append_of_pos (fun a ha => hT a (List.mem_reverse.mp ha))] at h2
    have h3 : k.reverse <:+: A.reverse :=
      h2.trans (List.dropWhile_suffix _).isInfix
    simpa using h3.reverse
  · intro h
    exact h.trans (sub_self_append A T)

theorem rdrop_decomp (p : Char → Bool) (l : List Char) :
    l.rdropWhile p ++ l.rtakeWhile p = l := by
  unfold List.rdropWhile List.rtakeWhile
  rw [← List.reverse_append, List.takeWhile_append_dropWhile, List.reverse_reverse]

/-! ### Error-Line Extractor lemmas -/

theorem error_keywords_ok :
    ∀ k ∈ error_keywords, k ≠ [] ∧ ∀ c ∈ k, isPyWs c = false := by decide

theorem keepLine_eq (line : List Char) :
    keepLine line =
      if specKeep (pyStrip line) then some (pyStrip line) else none := by
  have hany : (error_keywords.any fun k => decide (k <:+: (pyStrip line).map pyLower)) =
      error_keywords.any fun k => decide (k <:+: line.map pyLower) := by
    rw [pyLower_pyStrip]
    exact any_sub_strip error_keywords error_keywords_ok _
  by_cases hA : (error_keywords.any fun k => decide (k <:+: line.map pyLower)) = true
  · by_cases hB : pyStrip line = []
    · simp [keepLine, specKeep, hany, hA, hB]
    · by_cases hC : (pyStrip line).head? = some '('
      · simp [keepLine, specKeep, hany, hA, hB, hC]
      · simp [keepLine, specKeep, hany, hA, hB, hC]
  · simp [keepLine, specKeep, hany, hA]

theorem filterMap_keepLine (lines : List (List Char)) :
    lines.filterMap keepLine = (lines.map pyStrip).filter specKeep := by
  induction lines with
  | nil => rfl
  | cons l ls ih =>
    rw [List.filterMap_cons, List.map_cons, List.filter_cons, keepLine_eq l]
    cases hK : specKeep (pyStrip l) with
    | true => simp [hK, ih]
    | false => simp [hK, ih]

theorem parse_mmdc_errors_ne_nil (stderr : List Char) :
    parse_mmdc_errors stderr ≠ [] := by
  unfold parse_mmdc_errors
  by_cases h : (splitNl stderr).filterMap keepLine = [] <;> simp [h]

theorem keepLine_some {line e : List Char} (h : keepLine line = some e) :
    e = pyStrip line ∧ specKeep e = true := by
  rw [keepLine_eq] at h
  cases hK : specKeep (pyStrip line) with
  | true =>
    rw [if_pos hK] at h
    injection h with h1
    constructor
    · exact h1.symm
    · rw [← h1]
      exact hK
  | false =>
    rw [if_neg (by simp [hK])] at h
    cases h

theorem keepLine_fix {line e : List Char} (h : keepLine line = some e) :
    keepLine e = some e := by
  obtain ⟨he, hk⟩ := keepLine_some h
  subst he
  rw [keepLine_eq, pyStrip_idem]
  rw [if_pos hk]

theorem no_nl_keepLine {line e : List Char} (hline : '\n' ∉ line)
    (h : keepLine line = some e) : '\n' ∉ e := by
  obtain ⟨he, -⟩ := keepLine_some h
  subst he
  exact fun hx => hline ((pyStrip_sub line).subset hx)

theorem filterMap_fix {f : List Char → Option (List Char)} {l : List (List Char)}
    (h : ∀ e ∈ l, f e = some e) : l.filterMap f = l := by
  induction l with
  | nil => rfl
  | cons a t ih =>
    rw [List.filterMap_cons, h a (List.mem_cons_self a t),
      ih (fun e he => h e (List.mem_cons_of_mem a he))]

/-! ### Diagram Type Detector lemmas -/

theorem type_map_keywords_ok :
    ∀ p ∈ type_map, p.1 ≠ [] ∧ ∀ c ∈ p.1, isPyWs c = false := by decide

theorem find?_pred_congr {α : Type} {p q : α → Bool} (l : List α)
    (h : ∀ a ∈ l, p a = q a) : l.find? p = l.find? q := by
  induction l with
  | nil => rfl
  | cons a t ih =>
    cases hq : q a with
    | true =>
      rw [List.find?_cons_of_pos _ (by rw [h a (List.mem_cons_self a t)]; exact hq),
        List.find?_cons_of_pos _ hq]
    | false =>
      rw [List.find?_cons_of_neg _ (by simp [h a (List.mem_cons_self a t), hq]),
        List.find?_cons_of_neg _ (by simp [hq]),
        ih (fun x hx => h x (List.mem_cons_of_mem a hx))]

theorem stripSpaceHyphen_append (a b : List Char) :
    stripSpaceHyphen (a ++ b) = stripSpaceHyphen a ++ stripSpaceHyphen b := by
  simp [stripSpaceHyphen, List.filter_append]

theorem find_type_rstrip (L : List Char) :
    (type_map.find? fun p => decide (p.1 <:+: stripSpaceHyphen (L.map pyLower))) =
      type_map.find? fun p =>
        decide (p.1 <:+: stripSpaceHyphen ((L.rdropWhile isPyWs).map pyLower)) := by
  have hsplit : stripSpaceHyphen (L.map pyLower) =
      stripSpaceHyphen ((L.rdropWhile isPyWs).map pyLower) ++
        stripSpaceHyphen ((L.rtakeWhile isPyWs).map pyLower) := by
    conv_lhs => rw [← rdrop_decomp isPyWs L]
    rw [List.map_append, stripSpaceHyphen_append]
  have hT : ∀ c ∈ stripSpaceHyphen ((L.rtakeWhile isPyWs).map pyLower),
      isPyWs c = true := by
    intro c hc
    have hc2 : c ∈ (L.rtakeWhile isPyWs).map pyLower :=
      List.mem_of_mem_filter (List.mem_of_mem_filter hc)
    obtain ⟨d, hd, rfl⟩ := List.mem_map.mp hc2
    rw [pyLower_ws]
    exact List.mem_rtakeWhile_imp hd
  apply find?_pred_congr
  intro a ha
  have hk := type_map_keywords_ok a ha
  apply decide_eq_decide.mpr
  rw [hsplit]
  exact sub_append_ws hk.1 hk.2 hT

theorem detect_eq_of_strip_eq {a b : List Char} (h : pyStrip a = pyStrip b) :
    detect_diagram_type a = detect_diagram_type b := by
  unfold detect_diagram_type firstLineLower
  rw [h]

theorem detect_first_line (l rest : List Char) (hnl : '\n' ∉ l)
    (hne : pyStrip l ≠ []) :
    detect_diagram_type (l ++ '\n' :: rest) = detect_diagram_type l := by
  have hXne : l.dropWhile isPyWs ≠ [] := by
    intro h0
    apply hne
    unfold pyStrip
    rw [h0]
    rfl
  have hdrop : (l ++ '\n' :: rest).dropWhile isPyWs =
      l.dropWhile isPyWs ++ '\n' :: rest := by
    rw [List.dropWhile_append, if_neg (by simp [hXne])]
  by_cases hrest : ∀ c ∈ rest, isPyWs c = true
  · have hstrip : pyStrip (l ++ '\n' :: rest) = pyStrip l := by
      unfold pyStrip
      rw [hdrop]
      unfold List.rdropWhile
      rw [List.reverse_append, List.reverse_cons, List.append_assoc,
        List.dropWhile_append_of_pos
          (fun a ha => hrest a (List.mem_reverse.mp ha)),
        List.dropWhile_append_of_pos (by intro a ha; simp at ha; simp [ha, isPyWs])]
    exact detect_eq_of_strip_eq hstrip
  · push_neg at hrest
    obtain ⟨c0, hc0, hc0n⟩ := hrest
    have hrne : rest.reverse.dropWhile isPyWs ≠ [] := by
      rw [Ne, List.dropWhile_eq_nil_iff]
      intro hall
      exact hc0n (hall c0 (List.mem_reverse.mpr hc0))
    have hstrip2 : pyStrip (l ++ '\n' :: rest) =
        l.dropWhile isPyWs ++ '\n' :: rest.rdropWhile isPyWs := by
      unfold pyStrip
      rw [hdrop]
      unfold List.rdropWhile
      rw [List.reverse_append, List.reverse_cons, List.append_assoc,
        List.dropWhile_append, if_neg (by simp [hrne])]
      simp [List.reverse_append, List.append_assoc]
    have hAnl : '\n' ∉ l.dropWhile isPyWs :=
      fun hx => hnl ((List.dropWhile_suffix isPyWs).sublist.subset hx)
    have hnl2 : '\n' ∉ pyStrip l := fun hx => hnl ((pyStrip_sub l).subset hx)
    have hfll : firstLineLower (l ++ '\n' :: rest) =
        (l.dropWhile isPyWs).map pyLower := by
      unfold firstLineLower
      rw [hstrip2, if_neg (by simp), splitNl_append _ hAnl]
      rfl
    have hfll2 : firstLineLower l = (pyStrip l).map pyLower := by
      unfold firstLineLower
      rw [if_neg hne, splitNl_no_nl hnl2]
      rfl
    have hps : pyStrip l = (l.dropWhile isPyWs).rdropWhile isPyWs := rfl
    simp only [detect_diagram_type]
    rw [hfll, hfll2, hps, ← find_type_rstrip (l.dropWhile isPyWs)]

/-! ### Claims -/

/-- C1 counterexample: the first line `"gitGraph"` (whose normalized form
contains the keyword `"gitgraph"`) is classified `"flowchart"`, not
`"git-graph"`, because the earlier table entry `"graph"` already matches. -/
theorem C1_counterexample :
    ("gitgraph".toList <:+: stripSpaceHyphen (firstLineLower "gitGraph".toList)) ∧
    detect_diagram_type "gitGraph".toList ≠ "git-graph".toList := by decide

/-- C1 (amended): for every content whose first non-empty line, after
lowercasing and removing spaces and hyphens, contains the keyword
`"gitgraph"`, `detect_diagram_type` returns `"flowchart"` — the first
matching type name in table order, since such a line also contains the
earlier keyword `"graph"`; the `"git-graph"` entry is unreachable. -/
theorem C1_gitgraph_detects_flowchart (content : List Char)
    (h : "gitgraph".toList <:+: stripSpaceHyphen (firstLineLower content)) :
    detect_diagram_type content = "flowchart".toList := by
  have hg : "graph".toList <:+: stripSpaceHyphen (firstLineLower content) :=
    List.IsInfix.trans (by decide) h
  simp only [detect_diagram_type, type_map, List.find?_cons, decide_eq_true hg]

/-- C1 witness: the amended theorem applied at the concrete input
`"gitGraph"`. -/
theorem C1_gitgraph_witness :
    ("gitgraph".toList <:+: stripSpaceHyphen (firstLineLower "gitGraph".toList)) ∧
    detect_diagram_type "gitGraph".toList = "flowchart".toList :=
  ⟨by decide, C1_gitgraph_detects_flowchart "gitGraph".toList (by decide)⟩

/-- C2: evaluating the code at the failing input — a `--stdin` run with the
valid-looking diagram `"graph TD"` in an environment where `npx` cannot be
found (`FileNotFoundError`) — exits with code 1, not 2: the handler converts
ToolUnavailable into a `valid:false` ValidationResult, which the top-level
logic treats like an invalid diagram. -/
theorem C2_tool_unavailable_exits_one :
    main_exit (CliInput.stdinContent "graph TD".toList) RunOutcome.fileNotFound = 1 ∧
    validate_diagram "graph TD".toList RunOutcome.fileNotFound =
      { valid := false,
        errors := ["mermaid-cli not available - npx command not found".toList],
        warnings := [],
        diagram_type := "flowchart".toList } := by decide

/-- C3: for every empty or whitespace-only content, `validate_diagram`
returns exactly the Empty-diagram result and performs no event at all — no
subprocess spawn and no temporary-file creation. -/
theorem C3_empty_content (content : List Char) (run : RunOutcome)
    (h : pyStrip content = []) :
    validate_diagram_events content run =
      ({ valid := false,
         errors := ["Empty diagram content".toList],
         warnings := [],
         diagram_type := "unknown".toList }, []) := by
  unfold validate_diagram_events
  rw [if_pos h]

/-- C3 witness: the theorem applied at the whitespace-only content
`"  \n "`. -/
theorem C3_empty_content_witness :
    pyStrip "  \n ".toList = [] ∧
    validate_diagram_events "  \n ".toList RunOutcome.timedOut =
      ({ valid := false,
         errors := ["Empty diagram content".toList],
         warnings := [],
         diagram_type := "unknown".toList }, []) :=
  ⟨by decide, C3_empty_content "  \n ".toList RunOutcome.timedOut (by decide)⟩

/-- C4: on both content-bearing CLI paths (`--stdin` and a readable file),
`main` prints the `ValidationResult` produced by `validate_diagram` to
standard output, and exits 0 exactly when the result is valid and 1 exactly
when it is not — timeouts and runtime failures included, since they are
ordinary `valid:false` results. -/
theorem C4_exit_iff_valid (content : List Char) (run : RunOutcome) :
    main_stdout (CliInput.stdinContent content) run =
      some (validate_diagram content run) ∧
    main_stdout (CliInput.fileOk content) run =
      some (validate_diagram content run) ∧
    (main_exit (CliInput.stdinContent content) run = 0 ↔
      (validate_diagram content run).valid = true) ∧
    (main_exit (CliInput.stdinContent content) run = 1 ↔
      (validate_diagram content run).valid = false) ∧
    (main_exit (CliInput.fileOk content) run = 0 ↔
      (validate_diagram content run).valid = true) ∧
    (main_exit (CliInput.fileOk content) run = 1 ↔
      (validate_diagram content run).valid = false) := by
  cases hv : (validate_diagram content run).valid <;>
    simp [main_exit, main_stdout, hv]

/-- C5: type detection is case-insensitive, ignores spaces and hyphens, and
looks only at the first non-empty line: `"Graph TD"`, `"GRAPH-TD"` and
`"graphtd"` classify as `"flowchart"`; classification of multi-line content
equals classification of its first (non-blank, newline-free) line, so a
second line `"pie"` does not override a first line `"graph TD"`; an
unrecognized or empty first line yields `"unknown"`. -/
theorem C5_detection_normalization :
    detect_diagram_type "Graph TD".toList = "flowchart".toList ∧
    detect_diagram_type "GRAPH-TD".toList = "flowchart".toList ∧
    detect_diagram_type "graphtd".toList = "flowchart".toList ∧
    (∀ l rest : List Char, '\n' ∉ l → pyStrip l ≠ [] →
      detect_diagram_type (l ++ '\n' :: rest) = detect_diagram_type l) ∧
    detect_diagram_type ("graph TD".toList ++ '\n' :: "pie".toList) =
      "flowchart".toList ∧
    detect_diagram_type "nonsense first line".toList = "unknown".toList ∧
    detect_diagram_type "".toList = "unknown".toList :=
  ⟨by decide, by decide, by decide, detect_first_line, by decide, by decide,
    by decide⟩

/-- C5 witness: the first-line-only conjunct applied at the concrete inputs
`"graph TD"` and second line `"pie"`. -/
theorem C5_detection_witness :
    ('\n' ∉ "graph TD".toList ∧ pyStrip "graph TD".toList ≠ []) ∧
    detect_diagram_type ("graph TD".toList ++ '\n' :: "pie".toList) =
      detect_diagram_type "graph TD".toList :=
  ⟨⟨by decide, by decide⟩,
    C5_detection_normalization.2.2.2.1 "graph TD".toList "pie".toList
      (by decide) (by decide)⟩

/-- C6: `parse_mmdc_errors` returns, in input order, exactly the trimmed
non-empty lines whose lowercased form contains one of the five keywords and
that do not start with an opening parenthesis, falling back to the single
message `"Syntax error in diagram"` when no line qualifies — stated as
equality with the extractor written from the specification's words. -/
theorem C6_extractor_matches_spec (stderr : List Char) :
    parse_mmdc_errors stderr = spec_extracted_errors stderr := by
  simp only [parse_mmdc_errors, spec_extracted_errors, filterMap_keepLine]

/-- C7: after any `validate_diagram` call — success, renderer failure,
timeout, missing tool, or other exception — neither temporary file exists:
folding the call's event trace over an initially clean filesystem state ends
with both files absent, and unlinking a missing file is a silent no-op. -/
theorem C7_temp_files_removed (content : List Char) (run : RunOutcome) :
    finalFs content run = { inputExists := false, outputExists := false } := by
  unfold finalFs validate_diagram_events
  by_cases h : pyStrip content = []
  · rw [if_pos h]
    rfl
  · rw [if_neg h]
    cases run <;> rfl

/-- C8: when the renderer subprocess exceeds the fixed 10-second timeout,
`validate_diagram` returns exactly the timeout result, with `diagram_type`
computed by the Detector on the original content. -/
theorem C8_timeout_result (content : List Char) (h : pyStrip content ≠ []) :
    subprocess_timeout_seconds = 10 ∧
    validate_diagram content RunOutcome.timedOut =
      { valid := false,
        errors :=
          ["Validation timeout (diagram too complex or infinite loop)".toList],
        warnings := [],
        diagram_type := detect_diagram_type content } := by
  refine ⟨rfl, ?_⟩
  unfold validate_diagram validate_diagram_events
  rw [if_neg h]

/-- C8 witness: the theorem applied at the concrete content `"graph TD;"`. -/
theorem C8_timeout_witness :
    pyStrip "graph TD;".toList ≠ [] ∧
    (subprocess_timeout_seconds = 10 ∧
     validate_diagram "graph TD;".toList RunOutcome.timedOut =
      { valid := false,
        errors :=
          ["Validation timeout (diagram too complex or infinite loop)".toList],
        warnings := [],
        diagram_type := detect_diagram_type "graph TD;".toList }) :=
  ⟨by decide, C8_timeout_result "graph TD;".toList (by decide)⟩

/-- C9: error-line extraction is idempotent: re-applying `parse_mmdc_errors`
to its own output rejoined with newlines yields the same list, including when
the fallback message was produced. -/
theorem C9_extractor_idempotent (stderr : List Char) :
    parse_mmdc_errors (joinNl (parse_mmdc_errors stderr)) =
      parse_mmdc_errors stderr := by
  by_cases h : (splitNl stderr).filterMap keepLine = []
  · have h1 : parse_mmdc_errors stderr = [fallback_error] := by
      simp [parse_mmdc_errors, h]
    rw [h1]
    decide
  · have h1 : parse_mmdc_errors stderr = (splitNl stderr).filterMap keepLine := by
      simp [parse_mmdc_errors, h]
    have hq : ∀ e ∈ (splitNl stderr).filterMap keepLine,
        keepLine e = some e ∧ '\n' ∉ e := by
      intro e he
      obtain ⟨line, hline, hsome⟩ := List.mem_filterMap.mp he
      exact ⟨keepLine_fix hsome,
        no_nl_keepLine (no_nl_of_mem_splitNl hline) hsome⟩
    rw [h1]
    have hsplit : splitNl (joinNl ((splitNl stderr).filterMap keepLine)) =
        (splitNl stderr).filterMap keepLine :=
      splitNl_joinNl h (fun e he => (hq e he).2)
    simp only [parse_mmdc_errors]
    rw [hsplit, filterMap_fix (fun e he => (hq e he).1), if_neg h]

/-- C10: every result of `validate_diagram`, on every path, is a well-formed
four-field `ValidationResult` whose `warnings` is always the empty list and
whose `errors` is non-empty exactly when `valid` is false. -/
theorem C10_result_invariant (content : List Char) (run : RunOutcome) :
    (validate_diagram content run).warnings = [] ∧
    ((validate_diagram content run).errors ≠ [] ↔
      (validate_diagram content run).valid = false) := by
  unfold validate_diagram validate_diagram_events
  by_cases h : pyStrip content = []
  · rw [if_pos h]
    simp
  · rw [if_neg h]
    cases run with
    | completed rc out err =>
      by_cases hrc : (rc == 0) = true
      · simp [hrc]
      · simp [hrc, parse_mmdc_errors_ne_nil err]
    | timedOut => simp
    | fileNotFound => simp
    | otherError msg => simp

end ValidateMermaid
